import Mathlib

/-!
Verification of behavioural claims about the `langgraph_teach` repository's
UI layers (agents_chat_ui, agents_chat_ui_v2, easy_rag_server web console).

JavaScript values flowing through the components are modelled by a small
JSON datatype `Json`; JS truthiness, property access, `||` defaulting and
array indexing are modelled explicitly.  Thrown `TypeError`s are modelled
with `Except Unit`.
-/

namespace LGTeach

/-- Model of a JavaScript/JSON value.  `undefined` is modelled as the
absence of an `Option Json` (e.g. a missing object property), `null` as
`Json.null`.  Numbers are modelled as integers (the values relevant to the
claims are integral). -/
inductive Json where
  | null
  | bool (b : Bool)
  | num (n : Int)
  | str (s : String)
  | arr (xs : List Json)
  | obj (fields : List (String × Json))

/-- JS falsiness: `null`, `false`, `0` and `""` are falsy; every object and
array (including `{}` and `[]`) is truthy. -/
def Json.falsy : Json → Bool
  | .null => true
  | .bool b => !b
  | .num n => n == 0
  | .str s => s == ""
  | .arr _ => false
  | .obj _ => false

/-- JS `typeof x === "object"`: objects, arrays and `null`. -/
def Json.isObjectType : Json → Bool
  | .obj _ => true
  | .arr _ => true
  | .null => true
  | _ => false

/-- JS property access `x.k` on a non-null value: defined on plain objects,
`undefined` (`none`) otherwise (property access on numbers, strings,
booleans and arrays by a non-index name yields `undefined`). -/
def Json.getProp (j : Json) (k : String) : Option Json :=
  match j with
  | .obj fields => (fields.find? (fun p => p.1 == k)).map (fun p => p.2)
  | _ => none

/-- JS defaulting `x || d` where `x` may be `undefined` (`none`): yields `x`
when `x` is present and truthy, otherwise `d`. -/
def jsOr (x : Option Json) (d : Json) : Json :=
  match x with
  | some v => if v.falsy then d else v
  | none => d

/-- JS string defaulting `x || d` for an optional string value. -/
def strOr (x : Option String) (d : String) : String :=
  match x with
  | some s => if s == "" then d else s
  | none => d

/-- JS `String.prototype.trim`: strip whitespace from both ends. -/
def jsTrim (s : String) : String :=
  String.mk (((s.toList.dropWhile Char.isWhitespace).reverse.dropWhile
    Char.isWhitespace).reverse)

/-! ## Thread list pagination (agents_chat_ui_v2/app/hooks/useThreads.ts) -/

/-- Client configuration returned by `getConfig()`. -/
structure AppConfig where
  deploymentUrl : String
  assistantId : String
  langsmithApiKey : Option String

/-- An entry of the thread list as produced by the `useThreads` fetcher.
`title` is always a string at runtime; `description` is whatever
`content.slice(0, 100)` produced, which is a string for string contents but
is kept as a `Json` to stay faithful to the untyped runtime value. -/
structure ThreadItem where
  id : String
  updatedAt : String
  status : String
  title : String
  description : Json
  assistantId : Option String

/-- The SWR page key built by `useThreads`. -/
structure ThreadsKey where
  pageIndex : Nat
  pageSize : Nat
  deploymentUrl : String
  assistantId : String
  apiKey : String
  status : Option String

/-- The `getKey` function passed to `useSWRInfinite` in `useThreads`:
returns `null` when there is no config, or when the previous page came back
as an empty array; otherwise builds the page key. -/
def useThreadsGetKey (config : Option AppConfig) (envApiKey : Option String)
    (pageSize : Nat) (status : Option String)
    (pageIndex : Nat) (previousPageData : Option (List ThreadItem)) :
    Option ThreadsKey :=
  let apiKey := strOr (config.bind (fun c => c.langsmithApiKey)) (strOr envApiKey "")
  match config with
  | none => none
  | some c =>
    match previousPageData with
    | some prev =>
      if prev.length == 0 then none
      else some ⟨pageIndex, pageSize, c.deploymentUrl, c.assistantId, apiKey, status⟩
    | none => some ⟨pageIndex, pageSize, c.deploymentUrl, c.assistantId, apiKey, status⟩

/-! ## Thread deletion (agents_chat_ui/src/components/thread/history/index.tsx) -/

/-- The component state touched by `handleConfirmDelete`:
the selected thread (`threadId` query state), the thread pending deletion,
and the dialog bookkeeping flags. -/
structure DeleteState where
  threadId : Option String
  threadToDelete : Option String
  isDeleting : Bool
  deleteDialogOpen : Bool

/-- `handleConfirmDelete`: no-op when no thread is pending; otherwise runs
the server delete (`succeeds` tells whether `deleteThread` resolved), clears
the selection only when the deleted thread is the selected one and the
delete succeeded, and in all cases resets the dialog state (the `finally`
block). -/
def handleConfirmDelete (succeeds : Bool) (s : DeleteState) : DeleteState :=
  match s.threadToDelete with
  | none => s
  | some tid =>
    let s1 :=
      if succeeds && (some tid == s.threadId) then
        { s with threadId := none }
      else
        s
    { s1 with isDeleting := false, deleteDialogOpen := false, threadToDelete := none }

/-! ## localStorage polyfill (agents_chat_ui/src/polyfills/local-storage.ts) -/

/-- The backing `Map<string, string>` of the in-memory polyfill, modelled as
an insertion-ordered association list with (invariantly) distinct keys,
matching JS `Map` semantics: `set` of an existing key updates in place,
`set` of a new key appends. -/
def MemStore := List (String × String)

/-- `store.set(key, value)` (JS `Map.set`). -/
def memSet (s : List (String × String)) (k v : String) : List (String × String) :=
  if s.any (fun p => p.1 == k) then
    s.map (fun p => if p.1 == k then (k, v) else p)
  else
    s ++ [(k, v)]

/-- `store.get(key)` combined with `store.has(key)` as in `getItem`:
`some` when present, `none` (JS `null`) otherwise. -/
def memGet (s : List (String × String)) (k : String) : Option String :=
  (s.find? (fun p => p.1 == k)).map (fun p => p.2)

/-- `store.delete(key)` (JS `Map.delete`). -/
def memDelete (s : List (String × String)) (k : String) : List (String × String) :=
  s.filter (fun p => p.1 != k)

/-- `memoryStorage.getItem`. -/
def storageGetItem (s : List (String × String)) (k : String) : Option String :=
  memGet s k

/-- `memoryStorage.setItem`: stores `String(value)`; since the stored value
is already a string, `String(value)` is the value itself. -/
def storageSetItem (s : List (String × String)) (k v : String) : List (String × String) :=
  memSet s k v

/-- `memoryStorage.removeItem`. -/
def storageRemoveItem (s : List (String × String)) (k : String) : List (String × String) :=
  memDelete s k

/-- `memoryStorage.clear`. -/
def storageClear (_s : List (String × String)) : List (String × String) :=
  []

/-- The `length` getter: `store.size`. -/
def storageLength (s : List (String × String)) : Nat :=
  s.length

/-! ## Interrupt approval UI (unnamed InterruptActions component) -/

/-- Helper for JS `String.prototype.includes`: does `l` start with `p`? -/
def startsWithList : List Char → List Char → Bool
  | [], _ => true
  | _ :: _, [] => false
  | p :: ps, c :: cs => p == c && startsWithList ps cs

/-- Helper for JS `String.prototype.includes`: does `l` contain `pat` as a
contiguous sublist? -/
def containsSub (pat : List Char) : List Char → Bool
  | [] => startsWithList pat []
  | c :: cs => startsWithList pat (c :: cs) || containsSub pat cs

/-- JS `x.includes(s)`: array membership by `===` for arrays (only string
elements can equal another string), substring test for strings, and a
`TypeError` for any other receiver. -/
def jsIncludes (j : Json) (s : String) : Except Unit Bool :=
  match j with
  | .arr xs => .ok (xs.any (fun x => match x with | .str t => t == s | _ => false))
  | .str t => .ok (containsSub s.toList t.toList)
  | _ => .error ()

/-- The body of the `value.action_requests.map((actionReq, idx) => ...)`
callback in the batch branch of the `interrupts` memo: pairs the action
request with `review_configs[idx] || {}`, derives the four permission flags
from `allowed_decisions.includes(...)`, and builds the normalised
interrupt object.  A `TypeError` propagates to the surrounding `catch`: the
first property access `actionReq.name` throws when the entry is `null`, and
`.includes` throws on a truthy non-array, non-string `allowed_decisions`. -/
def parseBatchRow (rcs : List Json) (idx : Nat) (aq : Json) : Except Unit Json := do
  let reviewConfig := jsOr (rcs.get? idx) (.obj [])
  let allowedDecisions := jsOr (reviewConfig.getProp "allowed_decisions") (.arr [])
  match aq with
  | .null => Except.error ()
  | _ => do
    let name := jsOr (aq.getProp "name") (jsOr (aq.getProp "action") (.str "未知操作"))
    let args := jsOr (aq.getProp "args") (jsOr (aq.getProp "arguments") (.obj []))
    let acc ← jsIncludes allowedDecisions "approve"
    let ed ← jsIncludes allowedDecisions "edit"
    let resp ← jsIncludes allowedDecisions "reject"
    let ign ← jsIncludes allowedDecisions "ignore"
    return .obj
      ([("action_request", .obj [("action", name), ("args", args)]),
        ("config", .obj [("allow_accept", .bool acc), ("allow_edit", .bool ed),
                         ("allow_respond", .bool resp), ("allow_ignore", .bool ign)])]
       ++ (match aq.getProp "description" with
           | some d => [("description", d)]
           | none => []))

/-- The `typeof x === "object" && x.action_request && typeof
x.action_request === "object"` test shared by the legacy array filter and
the legacy single-object branch. -/
def singleKeep (v : Json) : Bool :=
  v.isObjectType &&
    (match v.getProp "action_request" with
     | some ar => !ar.falsy && ar.isObjectType
     | none => false)

/-- The filter predicate of the legacy array branch: keep elements that are
truthy objects carrying a truthy object `action_request`. -/
def legacyKeep (item : Json) : Bool :=
  !item.falsy && singleKeep item

/-- The batch-form shape test: a (non-array) value whose `action_requests`
and `review_configs` properties are both arrays.  Property lookup succeeds
only on plain objects, so an array never has this shape. -/
def batchShape (v : Json) : Bool :=
  match v.getProp "action_requests", v.getProp "review_configs" with
  | some (.arr _), some (.arr _) => true
  | _, _ => false

/-- The `try` body of the `interrupts` memo: falsy value → `[]`; non-array
object with `action_requests` and `review_configs` arrays → batch parse
(paired by index); array → filter by `legacyKeep`; single object with a
truthy object `action_request` → singleton; otherwise `[]`. -/
def parseInterruptsCore (value : Json) : Except Unit (List Json) :=
  if value.falsy then .ok []
  else
    match value.getProp "action_requests", value.getProp "review_configs" with
    | some (.arr ars), some (.arr rcs) =>
      ars.enum.mapM (fun p => parseBatchRow rcs p.1 p.2)
    | _, _ =>
      match value with
      | .arr xs => .ok (xs.filter legacyKeep)
      | _ =>
        if singleKeep value then .ok [value] else .ok []

/-- The `interrupts` memo of `InterruptActions`: the `try` body with the
`catch` returning `[]` on a thrown error. -/
def parseInterrupts (value : Json) : List Json :=
  match parseInterruptsCore value with
  | .ok rows => rows
  | .error _ => []

/-- Line 232 of the component: when the parsed interrupt list is empty the
component returns `null` (renders nothing). -/
def interruptActionsVisible (value : Json) : Bool :=
  !(parseInterrupts value).isEmpty

/-- Per-row decision mode tracked in component state. -/
inductive DecisionMode where
  | idle
  | edit
  | reject
deriving DecidableEq

/-- Per-row pending decision (`InterruptDecision` in the component). -/
structure InterruptDecision where
  mode : DecisionMode
  editedArgs : Option Json := none
  rejectMessage : Option String := none

/-- A `HumanResponse` as submitted to `onSubmit`. -/
inductive HumanResponse where
  | approve
  | edit (name : Json) (args : Json)
  | reject (message : String)

/-- The body of the `interrupts.map((interrupt, idx) => ...)` callback in
`handleSubmit`: default to approve for missing action requests, missing
decisions and idle rows; build the edited action for edit rows; build the
prefixed rejection message for reject rows. -/
def rowResponse (row : Json) (decision : Option InterruptDecision) : HumanResponse :=
  match row.getProp "action_request" with
  | none => .approve
  | some ar =>
    if ar.falsy then .approve
    else
      match decision with
      | none => .approve
      | some d =>
        match d.mode with
        | .idle => .approve
        | .edit =>
          .edit (jsOr (ar.getProp "action") (.str "unknown"))
                (jsOr d.editedArgs (jsOr (ar.getProp "args") (.obj [])))
        | .reject =>
          let userMessage := strOr (d.rejectMessage.map jsTrim) ""
          .reject (if userMessage == "" then "用户拒绝" else "用户拒绝：" ++ userMessage)

/-- `handleSubmit`: maps every parsed interrupt row, in index order, to its
`HumanResponse` using the recorded decision for that index. -/
def handleSubmitResponses (rows : List Json)
    (decisions : Nat → Option InterruptDecision) : List HumanResponse :=
  rows.enum.map (fun p => rowResponse p.2 (decisions p.1))

/-- The default config object substituted when a row's `config` is missing
or falsy (lines 250–255 of the component). -/
def defaultConfigJson : Json :=
  .obj [("allow_accept", .bool true), ("allow_edit", .bool true),
        ("allow_respond", .bool true), ("allow_ignore", .bool false)]

/-- `safeConfig`: the row's `config` when truthy, else the default. -/
def rowSafeConfig (row : Json) : Json :=
  jsOr (row.getProp "config") defaultConfigJson

/-- Truthiness of a permission flag read off `safeConfig` (how the render
guards use `safeConfig.allow_accept` etc.). -/
def cfgFlag (row : Json) (k : String) : Bool :=
  match (rowSafeConfig row).getProp k with
  | some v => !v.falsy
  | none => false

/-- `decision?.mode === "edit"` for the row's recorded decision. -/
def isEditingD (d : Option InterruptDecision) : Bool :=
  match d with
  | some dd => dd.mode == .edit
  | none => false

/-- `decision?.mode === "reject"` for the row's recorded decision. -/
def isRejectingD (d : Option InterruptDecision) : Bool :=
  match d with
  | some dd => dd.mode == .reject
  | none => false

/-- Guard of the approve button (line 403). -/
def offersApprove (row : Json) (d : Option InterruptDecision) : Bool :=
  cfgFlag row "allow_accept" && !isEditingD d && !isRejectingD d

/-- Guard of the edit button (line 420). -/
def offersEdit (row : Json) (d : Option InterruptDecision) : Bool :=
  cfgFlag row "allow_edit" && !isRejectingD d

/-- Guard of the reject button (line 454). -/
def offersReject (row : Json) (d : Option InterruptDecision) : Bool :=
  cfgFlag row "allow_respond" && !isEditingD d

/-! ## Image extraction from tool results
(agents_chat_ui/src/components/thread/messages/tool-calls-new.tsx,
`extractImagesFromText`, pattern 5 and the final de-duplication) -/

/-- Character class `[A-Za-z0-9+/=]` of the long-base64 pattern. -/
def isB64Char (c : Char) : Bool :=
  c.isAlphanum || c == '+' || c == '/' || c == '='

/-- Scanning loop splitting a character list into its maximal runs of
base64 characters (the matches a global `[A-Za-z0-9+/=]{1000,}` scan
considers are exactly the maximal runs, kept later only when long enough).
`acc` holds the current run, reversed. -/
def b64RunsAux : List Char → List Char → List (List Char)
  | [], acc => if acc.isEmpty then [] else [acc.reverse]
  | c :: cs, acc =>
    if isB64Char c then
      b64RunsAux cs (c :: acc)
    else
      if acc.isEmpty then b64RunsAux cs [] else acc.reverse :: b64RunsAux cs []

/-- Maximal base64-character runs of a character list, in order. -/
def b64Runs (l : List Char) : List (List Char) :=
  b64RunsAux l []

/-- An element of the `images` array built by `extractImagesFromText`. -/
structure ExtractedImage where
  data : String
  type : String
  original : String
  isUrl : Bool
deriving DecidableEq

/-- The magic-sequence test of pattern 5: PNG, JPEG, GIF, or WebP base64
magic at the start of the run. -/
def hasMagicStart (r : List Char) : Bool :=
  startsWithList "iVBORw0KGgo".toList r || startsWithList "/9j/".toList r ||
    startsWithList "R0lGOD".toList r || startsWithList "UklGR".toList r

/-- The image object pushed by pattern 5 for a matched run. -/
def mkP5Image (r : List Char) : ExtractedImage :=
  { data := "data:image/png;base64," ++ String.mk r, type := "png",
    original := String.mk r, isUrl := false }

/-- Pattern 5 of `extractImagesFromText`: every maximal base64 run of at
least 1000 characters is a candidate; it is pushed as a PNG-tagged image
when its length is divisible by 4 and it starts with a known image magic
sequence. -/
def pattern5Images (text : String) : List ExtractedImage :=
  ((b64Runs text.toList).filter (fun r => 1000 ≤ r.length)).filterMap
    (fun r =>
      if r.length % 4 == 0 && hasMagicStart r then
        some (mkP5Image r)
      else
        none)

/-- The final de-duplication of `extractImagesFromText`: keep the first
image with each distinct `data` value (`filter` + `findIndex`). -/
def dedupByDataAux (seen : List String) : List ExtractedImage → List ExtractedImage
  | [] => []
  | x :: xs =>
    if seen.contains x.data then
      dedupByDataAux seen xs
    else
      x :: dedupByDataAux (x.data :: seen) xs

/-- De-duplicate an image list by exact `data` value, keeping first
occurrences in order. -/
def dedupByData (l : List ExtractedImage) : List ExtractedImage :=
  dedupByDataAux [] l

/-- The long-base64 stage of `extractImagesFromText` (lines 97–122): the
pattern-5 candidates followed by the de-duplication.  The other patterns
(data URLs, http(s) URLs and quoted JSON fields) require a `:` or `"`
character and therefore never match inside a bare base64 run. -/
def extractLongBase64Images (text : String) : List ExtractedImage :=
  dedupByData (pattern5Images text)

/-! ## File size formatting
(easy_rag_server/retrieval_grant_web/src/pages/knowledge-base/documents/index.tsx) -/

/-- `Math.round(a / b)` for natural `a` and positive natural `b` under
exact real semantics: `⌊a / b + 1/2⌋ = (2a + b) / (2b)`. -/
def jsRoundDiv (a b : Nat) : Nat :=
  (2 * a + b) / (2 * b)

/-- The `sizes` array of `formatFileSize`. -/
def sizesList : List String :=
  ["B", "KB", "MB", "GB"]

/-- JS number-to-string rendering of the value `n / 100` produced by
`Math.round(x * 100) / 100`: an integer renders without a decimal point,
otherwise trailing zeros are dropped. -/
def renderHundredths (n : Nat) : String :=
  if n % 100 == 0 then
    toString (n / 100)
  else if n % 10 == 0 then
    toString (n / 100) ++ "." ++ toString (n / 10 % 10)
  else
    toString (n / 100) ++ "." ++
      (if n % 100 < 10 then "0" ++ toString (n % 100) else toString (n % 100))

/-- `formatFileSize` from the documents page: `'0 B'` for zero, otherwise
`Math.round(bytes / 1024^i * 100) / 100 + ' ' + sizes[i]` with
`i = Math.floor(Math.log(bytes) / Math.log(1024))`, which for a positive
integer byte count is `Nat.log 1024 bytes` under exact real semantics.
`sizes[i]` is `undefined` when `i` exceeds 3, and string concatenation
renders it as `"undefined"`. -/
def formatFileSize (bytes : Nat) : String :=
  if bytes == 0 then
    "0 B"
  else
    let i := Nat.log 1024 bytes
    renderHundredths (jsRoundDiv (bytes * 100) (1024 ^ i)) ++ " " ++
      ((sizesList.get? i).getD "undefined")

/-! ## Similarity score display
(easy_rag_server/retrieval_grant_web/src/pages/knowledge-base/search/index.tsx) -/

/-- The four zero-padded decimal digits of `m % 10000`. -/
def padFrac4 (m : Nat) : String :=
  String.mk [Nat.digitChar (m / 1000 % 10), Nat.digitChar (m / 100 % 10),
             Nat.digitChar (m / 10 % 10), Nat.digitChar (m % 10)]

/-- `x.toFixed(4)` for a non-negative rational under exact real semantics:
round `x * 10^4` half away from zero, then print with exactly four
fractional digits. -/
def toFixed4Abs (q : ℚ) : String :=
  let n : ℕ := (⌊q * 10000 + 1 / 2⌋).toNat
  toString (n / 10000) ++ "." ++ padFrac4 (n % 10000)

/-- `x.toFixed(4)`: sign handled separately, magnitude as `toFixed4Abs`. -/
def toFixed4 (q : ℚ) : String :=
  if q < 0 then "-" ++ toFixed4Abs (-q) else toFixed4Abs q

/-- The similarity tag of the search tab's `renderItem`:
`(1 / (1 + item.score)).toFixed(4)`, where a zero divisor yields JS
`Infinity` whose `toFixed` is `"Infinity"`. -/
def displaySimilarity (distance : ℚ) : String :=
  if 1 + distance = 0 then "Infinity" else toFixed4 (1 / (1 + distance))

/-! ## Thread title and description derivation
(agents_chat_ui_v2/app/hooks/useThreads.ts, fetcher `threads.map`) -/

mutual

/-- JS ToString coercion of a value, as performed by `+` on a non-string
operand: arrays join their coerced elements with `,` (with `null` rendering
empty), plain objects render as `[object Object]`. -/
def jsCoerce : Json → String
  | .null => "null"
  | .bool b => if b then "true" else "false"
  | .num n => toString n
  | .str s => s
  | .arr xs => jsCoerceElems xs
  | .obj _ => "[object Object]"

/-- `Array.prototype.join(",")` over coerced elements. -/
def jsCoerceElems : List Json → String
  | [] => ""
  | [.null] => ""
  | [x] => jsCoerce x
  | .null :: xs => "," ++ jsCoerceElems xs
  | x :: xs => jsCoerce x ++ "," ++ jsCoerceElems xs

end

/-- JS `x[0]`: first element of an array, first character of a string,
property `"0"` of an object, `undefined` otherwise. -/
def jsIndex0 : Json → Option Json
  | .arr (x :: _) => some x
  | .arr [] => none
  | .str s =>
    match s.toList with
    | [] => none
    | c :: _ => some (.str (String.mk [c]))
  | .obj fields => (fields.find? (fun p => p.1 == "0")).map (fun p => p.2)
  | _ => none

/-- The content normalisation
`typeof content === "string" ? content : content[0]?.text || ""` applied to
a truthy message content. -/
def contentResolve (c : Json) : Json :=
  match c with
  | .str s => .str s
  | _ =>
    let t : Option Json :=
      match jsIndex0 c with
      | some x =>
        match x with
        | .null => none
        | _ => x.getProp "text"
      | none => none
    jsOr t (.str "")

/-- `messages.find((m) => m.type === ty)`: accessing `.type` on a `null`
element throws, which aborts the whole `try` block. -/
def findMsgE (ms : List Json) (ty : String) : Except Unit (Option Json) :=
  match ms with
  | [] => .ok none
  | m :: rest =>
    match m with
    | .null => .error ()
    | _ =>
      if (match m.getProp "type" with
          | some (.str t) => t == ty
          | _ => false) then
        .ok (some m)
      else
        findMsgE rest ty

/-- `content.slice(0, 50) + (content.length > 50 ? "..." : "")` (the
ellipsized title).  `.slice` exists on strings and arrays; on any other
value it throws.  An array slice is coerced to a string by the `+`. -/
def titleFromContent : Json → Except Unit String
  | .str s => .ok (String.mk (s.toList.take 50) ++ (if 50 < s.length then "..." else ""))
  | .arr xs => .ok (jsCoerce (.arr (xs.take 50)) ++ (if 50 < xs.length then "..." else ""))
  | _ => .error ()

/-- `content.slice(0, 100)` (the description).  The result is stored
untouched, so an array content stays an array. -/
def descFromContent : Json → Except Unit Json
  | .str s => .ok (.str (String.mk (s.toList.take 100)))
  | .arr xs => .ok (.arr (xs.take 100))
  | _ => .error ()

/-- The first-human-message phase of the `try` body: find the first human
message; when it has truthy content, compute the ellipsized title. -/
def titleStep (ms : List Json) : Except Unit (Option String) := do
  let fh ← findMsgE ms "human"
  match fh with
  | none => Except.ok none
  | some m =>
    match m.getProp "content" with
    | some c =>
      if c.falsy then Except.ok none
      else do
        let t ← titleFromContent (contentResolve c)
        Except.ok (some t)
    | none => Except.ok none

/-- The first-AI-message phase of the `try` body: find the first AI
message; when it has truthy content, compute the description. -/
def descStep (ms : List Json) : Except Unit (Option Json) := do
  let fa ← findMsgE ms "ai"
  match fa with
  | none => Except.ok none
  | some m =>
    match m.getProp "content" with
    | some c =>
      if c.falsy then Except.ok none
      else do
        let d ← descFromContent (contentResolve c)
        Except.ok (some d)
    | none => Except.ok none

/-- The `try` body of the per-thread mapping: look up `values.messages`
(throwing unless it is an array), then run the title phase and the
description phase in order. -/
def tryDeriveTitleDesc (v : Json) : Except Unit (Option String × Option Json) := do
  let ms ← match v.getProp "messages" with
    | some (.arr ms) => Except.ok ms
    | _ => Except.error ()
  let t? ← titleStep ms
  let d? ← descStep ms
  return (t?, d?)

/-- The title/description derivation of the `useThreads` fetcher: defaults
`("无标题对话", "")`; the guarded `try` body runs only when `thread.values`
is a truthy object value; a thrown error replaces the title with
`` `对话 ${thread.thread_id.slice(0, 8)}` `` and leaves the description at
its default. -/
def deriveTitleDesc (values : Option Json) (thread_id : String) : String × Json :=
  match values with
  | none => ("无标题对话", .str "")
  | some v =>
    if v.falsy || !v.isObjectType then
      ("无标题对话", .str "")
    else
      match tryDeriveTitleDesc v with
      | .ok (t?, d?) => (t?.getD "无标题对话", d?.getD (.str ""))
      | .error _ => ("对话 " ++ String.mk (thread_id.toList.take 8), .str "")

/-- The fields of a thread object returned by `client.threads.search` that
the mapping reads.  The `Date` conversion of `updated_at` is kept as the
raw string. -/
structure RawThread where
  thread_id : String
  updated_at : String
  status : String
  values : Option Json

/-- The `threads.map((thread): ThreadItem => ...)` body. -/
def threadToItem (assistantId : String) (t : RawThread) : ThreadItem :=
  let td := deriveTitleDesc t.values t.thread_id
  { id := t.thread_id, updatedAt := t.updated_at, status := t.status,
    title := td.1, description := td.2, assistantId := some assistantId }

/-! ## Concrete values used by the claims -/

/-- A batch review config allowing approve, edit and reject. -/
def c1ReviewConfig : Json :=
  .obj [("allowed_decisions", .arr [.str "approve", .str "edit", .str "reject"])]

/-- A batch interrupt value with three action requests. -/
def c1BatchValue : Json :=
  .obj [("action_requests", .arr
          [.obj [("name", .str "tool_a"), ("args", .obj [("q", .str "hi")])],
           .obj [("name", .str "tool_b"), ("args", .obj [("x", .num 0)])],
           .obj [("name", .str "tool_c"), ("args", .obj [])]]),
        ("review_configs", .arr [c1ReviewConfig, c1ReviewConfig, c1ReviewConfig])]

/-- Per-row decisions: row 0 untouched, row 1 edited to `{x: 1}`, row 2
rejected with feedback `"no"`. -/
def c1Decisions : Nat → Option InterruptDecision
  | 1 => some { mode := .edit, editedArgs := some (.obj [("x", .num 1)]) }
  | 2 => some { mode := .reject, rejectMessage := some "no" }
  | _ => none

/-- A minimal action request object. -/
def c1SingleAR : Json :=
  .obj [("action", .str "t"), ("args", .obj [])]

/-- A minimal interrupt row. -/
def c1SingleRow : Json :=
  .obj [("action_request", c1SingleAR)]

/-- A batch interrupt value whose `review_configs` array has no entry for
its single action request. -/
def c2BatchValue : Json :=
  .obj [("action_requests", .arr [.obj [("name", .str "tool_a"), ("args", .obj [])]]),
        ("review_configs", .arr [])]

/-- A base64 run of length 1001 (not a multiple of 4) with the PNG magic. -/
def c6Run : List Char :=
  "iVBORw0KGgo".toList ++ List.replicate 990 'A'

/-- A base64 run of length 1004 (a multiple of 4) with the PNG magic. -/
def c6GoodRun : List Char :=
  "iVBORw0KGgo".toList ++ List.replicate 993 'A'

/-- A human message with string content. -/
def c9Human : Json := .obj [("type", .str "human"), ("content", .str "hello")]

/-- An AI message with string content. -/
def c9Ai : Json := .obj [("type", .str "ai"), ("content", .str "world")]

/-- A well-formed message list. -/
def c9Messages : List Json := [c9Human, c9Ai]

/-- A thread whose state is well-formed. -/
def c9Thread : RawThread :=
  ⟨"threadid-123", "2024-01-01", "idle", some (.obj [("messages", .arr c9Messages)])⟩

/-- A thread whose state is malformed: `values.messages` is a string, so
`messages.find` throws. -/
def c9BadThread : RawThread :=
  ⟨"threadid-123", "2024-01-01", "idle", some (.obj [("messages", .str "oops")])⟩

/-! ## Theorems -/

/-- C4: for every thread-list page request whose `previousPageData` is a
non-null array of length zero, the `getKey` function of `useThreads`
returns `null`, so no further page is requested. -/
theorem useThreadsGetKey_stops_on_empty_page :
    ∀ (config : Option AppConfig) (envApiKey : Option String) (pageSize : Nat)
      (status : Option String) (pageIndex : Nat) (prev : List ThreadItem),
      prev.length = 0 →
      useThreadsGetKey config envApiKey pageSize status pageIndex (some prev) = none := by
  intro config env ps st pi prev h
  have hprev : prev = [] := List.length_eq_zero.mp h
  subst hprev
  cases config <;> rfl

/-- Witness for C4 at a concrete configuration and page index. -/
theorem useThreadsGetKey_stops_on_empty_page_witness :
    useThreadsGetKey (some ⟨"http://localhost:2024", "agent", none⟩) none 20 none 3
      (some []) = none :=
  useThreadsGetKey_stops_on_empty_page _ _ _ _ _ _ rfl

/-- C5: after a confirmed thread delete succeeds, the active selection is
cleared exactly when the deleted thread is the selected one; deleting any
other thread leaves the selection unchanged. -/
theorem handleConfirmDelete_selection (s : DeleteState) (tid : String)
    (h : s.threadToDelete = some tid) :
    (s.threadId = some tid → (handleConfirmDelete true s).threadId = none) ∧
    (s.threadId ≠ some tid → (handleConfirmDelete true s).threadId = s.threadId) := by
  constructor
  · intro hsel
    simp [handleConfirmDelete, h, hsel]
  · intro hne
    have hb : (some tid == s.threadId) = false :=
      beq_eq_false_iff_ne.mpr (fun he => hne he.symm)
    simp [handleConfirmDelete, h, hb]

/-- Witness for C5: deleting the selected thread clears the selection, and
deleting a different thread keeps it. -/
theorem handleConfirmDelete_selection_witness :
    (handleConfirmDelete true ⟨some "t1", some "t1", true, true⟩).threadId = none ∧
    (handleConfirmDelete true ⟨some "t2", some "t1", true, true⟩).threadId = some "t2" :=
  ⟨(handleConfirmDelete_selection ⟨some "t1", some "t1", true, true⟩ "t1" rfl).1 rfl,
   (handleConfirmDelete_selection ⟨some "t2", some "t1", true, true⟩ "t1" rfl).2 (by decide)⟩

/-- Helper: `formatFileSize` on a nonzero byte count, with the logarithm
abstracted. -/
theorem formatFileSize_eq (bytes i : Nat) (h0 : bytes ≠ 0)
    (hi : Nat.log 1024 bytes = i) :
    formatFileSize bytes =
      renderHundredths (jsRoundDiv (bytes * 100) (1024 ^ i)) ++ " " ++
        ((sizesList.get? i).getD "undefined") := by
  simp [formatFileSize, hi, h0]

/-- C7 counterexample: at `1024^4` bytes the unit index is 4, `sizes[4]` is
`undefined`, and the rendered string is `"1 undefined"` — not a value with
a unit clamped to {B, KB, MB, GB} (the claimed clamping would give
`"1024 GB"`). -/
theorem formatFileSize_terabyte_not_clamped :
    formatFileSize 1099511627776 = "1 undefined" ∧
    formatFileSize 1099511627776 ≠ "1024 GB" := by
  have h4 : Nat.log 1024 1099511627776 = 4 := by
    rw [show (1099511627776 : ℕ) = 1024 ^ 4 from by norm_num]
    exact Nat.log_pow (by norm_num) 4
  rw [formatFileSize_eq 1099511627776 4 (by norm_num) h4]
  constructor
  · rfl
  · decide

/-- C7 (amended): `"0 B"` for zero bytes; `1024 → "1 KB"`;
`1536 → "1.5 KB"`; and for every positive byte count below `1024^4` the
output is `size / 1024^i` rounded to two decimals followed by the unit
`["B","KB","MB","GB"][i]` with `i = ⌊log size / log 1024⌋`. -/
theorem formatFileSize_spec :
    formatFileSize 0 = "0 B" ∧ formatFileSize 1024 = "1 KB" ∧
    formatFileSize 1536 = "1.5 KB" ∧
    ∀ bytes : ℕ, 0 < bytes → bytes < 1024 ^ 4 →
      ∃ u, sizesList.get? (Nat.log 1024 bytes) = some u ∧
        formatFileSize bytes =
          renderHundredths (jsRoundDiv (bytes * 100) (1024 ^ Nat.log 1024 bytes))
            ++ " " ++ u := by
  refine ⟨rfl, ?_, ?_, ?_⟩
  · have h1 : Nat.log 1024 1024 = 1 := by
      simpa using Nat.log_pow (b := 1024) (by norm_num) 1
    rw [formatFileSize_eq 1024 1 (by norm_num) h1]
    rfl
  · have h1 : Nat.log 1024 1536 = 1 := by
      apply Nat.log_eq_of_pow_le_of_lt_pow <;> norm_num
    rw [formatFileSize_eq 1536 1 (by norm_num) h1]
    rfl
  · intro bytes h0 h4
    have hlt : Nat.log 1024 bytes < 4 := Nat.log_lt_of_lt_pow (by omega) h4
    have hlen : Nat.log 1024 bytes < sizesList.length := by
      simpa [sizesList] using hlt
    refine ⟨sizesList.get ⟨Nat.log 1024 bytes, hlen⟩, List.get?_eq_get hlen, ?_⟩
    rw [formatFileSize_eq bytes (Nat.log 1024 bytes) (by omega) rfl]
    rw [List.get?_eq_get hlen]
    rfl

/-- Witness for C7 at 2048 bytes. -/
theorem formatFileSize_spec_witness :
    ∃ u, sizesList.get? (Nat.log 1024 2048) = some u ∧
      formatFileSize 2048 =
        renderHundredths (jsRoundDiv (2048 * 100) (1024 ^ Nat.log 1024 2048))
          ++ " " ++ u :=
  formatFileSize_spec.2.2.2 2048 (by norm_num) (by norm_num)

/-- C8: for every non-negative raw distance the displayed similarity score
is `1 / (1 + distance)` formatted with `toFixed(4)` — in particular the
rendered string always has exactly four digits after the decimal point —
and the concrete instances `0 → "1.0000"` and `1 → "0.5000"` hold. -/
theorem displaySimilarity_spec :
    (∀ d : ℚ, 0 ≤ d →
      displaySimilarity d = toFixed4 (1 / (1 + d)) ∧
      ∃ ip fp, displaySimilarity d = ip ++ "." ++ fp ∧ fp.length = 4) ∧
    displaySimilarity 0 = "1.0000" ∧ displaySimilarity 1 = "0.5000" := by
  have key : ∀ d : ℚ, 0 ≤ d →
      displaySimilarity d = toFixed4 (1 / (1 + d)) ∧
      ∃ ip fp, displaySimilarity d = ip ++ "." ++ fp ∧ fp.length = 4 := by
    intro d hd
    have hpos : (0 : ℚ) < 1 + d := by linarith
    have hne : (1 : ℚ) + d ≠ 0 := ne_of_gt hpos
    have hq : (0 : ℚ) ≤ 1 / (1 + d) := by positivity
    have hshow : displaySimilarity d = toFixed4Abs (1 / (1 + d)) := by
      rw [displaySimilarity, if_neg hne, toFixed4, if_neg (not_lt.mpr hq)]
    refine ⟨by simp [displaySimilarity, hne], ?_⟩
    refine ⟨toString ((⌊(1 / (1 + d)) * 10000 + 1 / 2⌋).toNat / 10000),
      padFrac4 ((⌊(1 / (1 + d)) * 10000 + 1 / 2⌋).toNat % 10000), ?_, ?_⟩
    · rw [hshow]; rfl
    · rfl
  refine ⟨key, ?_, ?_⟩
  · have h0 : (0 : ℚ) ≤ 0 := le_refl 0
    have hf : (⌊(1 / (1 + (0 : ℚ))) * 10000 + 1 / 2⌋ : ℤ) = 10000 := by
      norm_num [Int.floor_eq_iff]
    have := (key 0 h0).1
    rw [this, toFixed4, if_neg (by norm_num), toFixed4Abs]
    rw [hf]
    rfl
  · have h1 : (0 : ℚ) ≤ 1 := by norm_num
    have hf : (⌊(1 / (1 + (1 : ℚ))) * 10000 + 1 / 2⌋ : ℤ) = 5000 := by
      norm_num [Int.floor_eq_iff]
    have := (key 1 h1).1
    rw [this, toFixed4, if_neg (by norm_num), toFixed4Abs]
    rw [hf]
    rfl

/-- Witness for C8 at distance 3. -/
theorem displaySimilarity_spec_witness :
    displaySimilarity 3 = toFixed4 (1 / (1 + 3)) ∧
    ∃ ip fp, displaySimilarity 3 = ip ++ "." ++ fp ∧ fp.length = 4 :=
  displaySimilarity_spec.1 3 (by norm_num)

/-- Helper for C10: looking up `k` after the in-place update branch of
`memSet` finds the new value. -/
theorem memGet_map_update (k v : String) :
    ∀ s : List (String × String), s.any (fun p => p.1 == k) = true →
      memGet (s.map (fun p => if p.1 == k then (k, v) else p)) k = some v := by
  intro s h
  induction s with
  | nil => simp at h
  | cons p rest ih =>
    by_cases hp : p.1 = k
    · have hpb : (p.1 == k) = true := beq_iff_eq.mpr hp
      simp only [List.map_cons, if_pos hpb]
      simp only [memGet]
      rw [List.find?_cons_of_pos _ (by simp)]
      rfl
    · have hpb : (p.1 == k) = false := beq_eq_false_iff_ne.mpr hp
      simp only [List.any_cons, hpb, Bool.false_or] at h
      have hrest := ih h
      simp only [List.map_cons, if_neg (by simp [hpb] : ¬ (p.1 == k) = true)]
      simp only [memGet] at hrest ⊢
      rw [List.find?_cons_of_neg _ (by simp [hpb])]
      exact hrest

/-- Helper for C10: a lookup skips a block of entries with other keys. -/
theorem memGet_append_of_not_found (k : String) :
    ∀ (s t : List (String × String)), s.any (fun p => p.1 == k) = false →
      memGet (s ++ t) k = memGet t k := by
  intro s t h
  have hnone : s.find? (fun p => p.1 == k) = none :=
    List.find?_eq_none.mpr (fun p hp => by
      have := List.any_eq_false.mp h p hp
      simpa using this)
  simp [memGet, List.find?_append, hnone]

/-- Helper for C10: the update branch of `memSet` keeps the key list. -/
theorem map_fst_memSet_update (k v : String) (s : List (String × String)) :
    (s.map (fun p => if p.1 == k then (k, v) else p)).map Prod.fst = s.map Prod.fst := by
  rw [List.map_map]
  apply List.map_congr_left
  intro p _
  by_cases hp : p.1 = k
  · simp only [Function.comp]
    rw [if_pos (beq_iff_eq.mpr hp)]
    exact hp.symm
  · simp only [Function.comp]
    rw [if_neg (by simp [beq_eq_false_iff_ne.mpr hp] : ¬ (p.1 == k) = true)]

/-- C10: the in-memory localStorage polyfill satisfies the storage
round-trip laws — reading a key after writing it returns the stored string;
reading after removal, or for a key never stored, returns `null`; `clear`
empties the store; and on stores with distinct keys (an invariant preserved
by all operations) `length` equals the number of distinct stored keys. -/
theorem memoryStorage_laws :
    (∀ (s : List (String × String)) (k v : String),
        storageGetItem (storageSetItem s k v) k = some v) ∧
    (∀ (s : List (String × String)) (k : String),
        storageGetItem (storageRemoveItem s k) k = none) ∧
    (∀ (s : List (String × String)) (k : String),
        (∀ p ∈ s, p.1 ≠ k) → storageGetItem s k = none) ∧
    (∀ (s : List (String × String)) (k : String),
        storageGetItem (storageClear s) k = none ∧ storageLength (storageClear s) = 0) ∧
    (∀ s : List (String × String), (s.map Prod.fst).Nodup →
        storageLength s = (s.map Prod.fst).dedup.length) ∧
    (∀ (s : List (String × String)) (k v : String), (s.map Prod.fst).Nodup →
        ((storageSetItem s k v).map Prod.fst).Nodup) ∧
    (∀ (s : List (String × String)) (k : String), (s.map Prod.fst).Nodup →
        ((storageRemoveItem s k).map Prod.fst).Nodup) := by
  refine ⟨?_, ?_, ?_, ?_, ?_, ?_, ?_⟩
  · intro s k v
    simp only [storageGetItem, storageSetItem, memSet]
    by_cases h : s.any (fun p => p.1 == k) = true
    · rw [if_pos h]
      exact memGet_map_update k v s h
    · rw [if_neg h]
      rw [memGet_append_of_not_found k s [(k, v)]
        (by cases hb : s.any (fun p => p.1 == k) with
            | true => exact absurd hb h
            | false => rfl)]
      simp [memGet]
  · intro s k
    have hnone : (s.filter (fun p => p.1 != k)).find? (fun p => p.1 == k) = none :=
      List.find?_eq_none.mpr (fun p hp => by
        have := (List.mem_filter.mp hp).2
        simpa using this)
    simp [storageGetItem, storageRemoveItem, memDelete, memGet, hnone]
  · intro s k h
    have hnone : s.find? (fun p => p.1 == k) = none :=
      List.find?_eq_none.mpr (fun p hp => by simpa using h p hp)
    simp [storageGetItem, memGet, hnone]
  · intro s k
    exact ⟨rfl, rfl⟩
  · intro s h
    simp [storageLength, List.Nodup.dedup h]
  · intro s k v h
    simp only [storageSetItem, memSet]
    by_cases hany : s.any (fun p => p.1 == k) = true
    · rw [if_pos hany, map_fst_memSet_update]
      exact h
    · rw [if_neg hany]
      have hk : k ∉ s.map Prod.fst := by
        intro hmem
        apply hany
        rw [List.any_eq_true]
        obtain ⟨p, hp, hpk⟩ := List.mem_map.mp hmem
        exact ⟨p, hp, beq_iff_eq.mpr hpk⟩
      rw [List.map_append]
      exact List.Nodup.append h (List.nodup_singleton k)
        (by simpa [List.disjoint_singleton] using hk)
  · intro s k h
    simp only [storageRemoveItem, memDelete]
    exact h.sublist (List.Sublist.map _ (List.filter_sublist s))

/-- Witness for C10 at a concrete store. -/
theorem memoryStorage_laws_witness :
    storageGetItem [("a", "1")] "b" = none ∧
    storageLength [("a", "1"), ("b", "2")] =
      ([("a", "1"), ("b", "2")].map Prod.fst).dedup.length :=
  ⟨memoryStorage_laws.2.2.1 [("a", "1")] "b" (by decide),
   memoryStorage_laws.2.2.2.2.1 [("a", "1"), ("b", "2")] (by decide)⟩

/-- Helper for C1: the response list is an index-wise map of the rows. -/
theorem handleSubmitResponses_get? (rows : List Json)
    (ds : Nat → Option InterruptDecision) (i : Nat) :
    (handleSubmitResponses rows ds).get? i =
      (rows.get? i).map (fun row => rowResponse row (ds i)) := by
  simp only [handleSubmitResponses]
  rw [List.get?_map, List.get?_enum]
  cases rows.get? i <;> rfl

/-- C1: submitting via the submit-all action produces one `HumanResponse`
per interrupt row, in index order: an untouched (idle) row yields approve,
an edited row yields an edit carrying the edited arguments, and a rejected
row yields a reject whose message is `用户拒绝：` + the trimmed feedback, or
the bare `用户拒绝` when the trimmed feedback is empty; in particular the
3-row batch with decisions [approve, edit({x:1}), reject("no")] submits
exactly those three decisions in order. -/
theorem handleSubmit_batch_decisions :
    (∀ (rows : List Json) (ds : Nat → Option InterruptDecision),
      (handleSubmitResponses rows ds).length = rows.length ∧
      ∀ i row ar, rows.get? i = some row →
        row.getProp "action_request" = some ar → ar.falsy = false →
        ((ds i = none ∨ (∃ d, ds i = some d ∧ d.mode = DecisionMode.idle)) →
            (handleSubmitResponses rows ds).get? i = some HumanResponse.approve) ∧
        (∀ d ea, ds i = some d → d.mode = DecisionMode.edit → d.editedArgs = some ea →
            ea.falsy = false →
            (handleSubmitResponses rows ds).get? i =
              some (HumanResponse.edit (jsOr (ar.getProp "action") (Json.str "unknown")) ea)) ∧
        (∀ d m, ds i = some d → d.mode = DecisionMode.reject → d.rejectMessage = some m →
            (handleSubmitResponses rows ds).get? i =
              some (HumanResponse.reject
                (if jsTrim m == "" then "用户拒绝" else "用户拒绝：" ++ jsTrim m)))) ∧
    handleSubmitResponses (parseInterrupts c1BatchValue) c1Decisions =
      [HumanResponse.approve,
       HumanResponse.edit (Json.str "tool_b") (Json.obj [("x", Json.num 1)]),
       HumanResponse.reject "用户拒绝：no"] := by
  constructor
  · intro rows ds
    constructor
    · simp [handleSubmitResponses]
    · intro i row ar hrow har harf
      refine ⟨?_, ?_, ?_⟩
      · rintro (hd | ⟨d, hd, hmode⟩)
        · rw [handleSubmitResponses_get?, hrow]
          simp [rowResponse, har, harf, hd]
        · rw [handleSubmitResponses_get?, hrow]
          simp [rowResponse, har, harf, hd, hmode]
      · intro d ea hd hmode hea heaf
        rw [handleSubmitResponses_get?, hrow]
        simp [rowResponse, har, harf, hd, hmode, hea, jsOr, heaf]
      · intro d m hd hmode hm
        rw [handleSubmitResponses_get?, hrow]
        simp only [rowResponse, har, harf, hd, hmode, hm, Option.map_some, Option.map_some']
        by_cases htm : jsTrim m = ""
        · simp [strOr, htm]
        · simp [strOr, htm]
  · rfl

/-- Witness for C1: a rejected single row with feedback `"no"` submits the
prefixed rejection message. -/
theorem handleSubmit_batch_decisions_witness :
    (handleSubmitResponses [c1SingleRow]
        (fun _ => some ⟨DecisionMode.reject, none, some "no"⟩)).get? 0 =
      some (HumanResponse.reject "用户拒绝：no") := by
  have h := (handleSubmit_batch_decisions.1 [c1SingleRow]
    (fun _ => some ⟨DecisionMode.reject, none, some "no"⟩)).2 0 c1SingleRow c1SingleAR
    rfl rfl rfl
  have h2 := h.2.2 ⟨DecisionMode.reject, none, some "no"⟩ "no" rfl rfl rfl
  simpa using h2

/-- C2 counterexample: in the batch form, a row whose review-config entry
is absent does NOT get the defaults (accept/edit/respond = true): its
`allowed_decisions` defaults to `[]`, so the constructed config object has
all four flags `false`, and `safeConfig` keeps that object (it is truthy).
In particular the edit flag is `false`, not `true` as claimed. -/
theorem batchRow_missing_review_config_not_default :
    ((parseInterrupts c2BatchValue).get? 0).map (fun r => cfgFlag r "allow_edit")
        = some false ∧
    ((parseInterrupts c2BatchValue).get? 0).map (fun r => cfgFlag r "allow_edit")
        ≠ some true ∧
    ((parseInterrupts c2BatchValue).get? 0).map
        (fun r => (cfgFlag r "allow_accept", cfgFlag r "allow_respond",
                   cfgFlag r "allow_ignore"))
        = some (false, false, false) :=
  ⟨rfl, by decide, rfl⟩

/-- C2 (amended): every action control is offered only when the row's own
flag permits it (and a row with `allow_edit = false` never offers the edit
control); a row whose `config` object is missing gets the defaults
accept/edit/respond = true, ignore = false; but a batch-form row whose
review-config entry at the same index is absent gets all four flags
`false` (for a non-null action-request entry — a null entry makes the
whole batch parse throw at `actionReq.name`). -/
theorem interrupt_action_gating :
    (∀ (row : Json) (d : Option InterruptDecision),
      (offersApprove row d = true → cfgFlag row "allow_accept" = true) ∧
      (offersEdit row d = true → cfgFlag row "allow_edit" = true) ∧
      (offersReject row d = true → cfgFlag row "allow_respond" = true) ∧
      (cfgFlag row "allow_edit" = false → offersEdit row d = false)) ∧
    (∀ row : Json, row.getProp "config" = none →
      cfgFlag row "allow_accept" = true ∧ cfgFlag row "allow_edit" = true ∧
      cfgFlag row "allow_respond" = true ∧ cfgFlag row "allow_ignore" = false) ∧
    (∀ (rcs : List Json) (idx : Nat) (aq : Json), rcs.get? idx = none →
      aq ≠ Json.null →
      (parseBatchRow rcs idx aq).map
          (fun r => (cfgFlag r "allow_accept", cfgFlag r "allow_edit",
                     cfgFlag r "allow_respond", cfgFlag r "allow_ignore"))
        = Except.ok (false, false, false, false)) ∧
    (∀ (rcs : List Json) (idx : Nat),
      parseBatchRow rcs idx Json.null = Except.error ()) := by
  refine ⟨?_, ?_, ?_, ?_⟩
  · intro row d
    refine ⟨?_, ?_, ?_, ?_⟩
    · intro h
      simp only [offersApprove, Bool.and_eq_true] at h
      exact h.1.1
    · intro h
      simp only [offersEdit, Bool.and_eq_true] at h
      exact h.1
    · intro h
      simp only [offersReject, Bool.and_eq_true] at h
      exact h.1
    · intro h
      simp [offersEdit, h]
  · intro row h
    refine ⟨?_, ?_, ?_, ?_⟩ <;>
      · unfold cfgFlag rowSafeConfig
        rw [h]
        rfl
  · intro rcs idx aq h haq
    cases aq with
    | null => exact absurd rfl haq
    | bool b =>
      simp only [parseBatchRow, h]
      rfl
    | num n =>
      simp only [parseBatchRow, h]
      rfl
    | str s =>
      simp only [parseBatchRow, h]
      rfl
    | arr xs =>
      simp only [parseBatchRow, h]
      rfl
    | obj fields =>
      simp only [parseBatchRow, h]
      rfl
  · intro rcs idx
    rfl

/-- Witness for C2: a legacy row with no `config` field offers the edit
control when idle, and the gating direction applied to it. -/
theorem interrupt_action_gating_witness :
    cfgFlag c1SingleRow "allow_edit" = true ∧
    (parseBatchRow [] 0 (Json.obj [("name", Json.str "tool_a")])).map
        (fun r => (cfgFlag r "allow_accept", cfgFlag r "allow_edit",
                   cfgFlag r "allow_respond", cfgFlag r "allow_ignore"))
      = Except.ok (false, false, false, false) :=
  ⟨(interrupt_action_gating.2.1 c1SingleRow rfl).2.1,
   interrupt_action_gating.2.2.1 [] 0 (Json.obj [("name", Json.str "tool_a")]) rfl
     (by intro hbad; cases hbad)⟩

/-- C3: the interrupt parser's precedence — a falsy value parses to `[]`;
an object with `action_requests` and `review_configs` arrays takes the
batch branch (paired by index), even if it also has an `action_request`
field; an array is filtered to its elements with a truthy object
`action_request`; any other value parses to the singleton `[v]` exactly
when it is an object with a truthy object `action_request`, else `[]`; a
thrown error also yields `[]`; and an empty parse renders nothing. -/
theorem parseInterrupts_precedence :
    (∀ v : Json, v.falsy = true → parseInterrupts v = []) ∧
    (∀ (fields : List (String × Json)) (ars rcs : List Json),
      (Json.obj fields).getProp "action_requests" = some (.arr ars) →
      (Json.obj fields).getProp "review_configs" = some (.arr rcs) →
      parseInterruptsCore (.obj fields) =
        ars.enum.mapM (fun p => parseBatchRow rcs p.1 p.2)) ∧
    (∀ xs : List Json, parseInterrupts (.arr xs) = xs.filter legacyKeep) ∧
    (∀ v : Json, v.falsy = false → batchShape v = false → (∀ xs, v ≠ .arr xs) →
      parseInterrupts v = if singleKeep v then [v] else []) ∧
    (∀ (v : Json) (rows : List Json), parseInterruptsCore v = .ok rows →
      parseInterrupts v = rows) ∧
    (∀ (v : Json) (e : Unit), parseInterruptsCore v = .error e →
      parseInterrupts v = []) ∧
    (∀ v : Json, parseInterrupts v = [] → interruptActionsVisible v = false) := by
  refine ⟨?_, ?_, ?_, ?_, ?_, ?_, ?_⟩
  · intro v h
    simp [parseInterrupts, parseInterruptsCore, h]
  · intro fields ars rcs hA hB
    simp [parseInterruptsCore, hA, hB, Json.falsy]
  · intro xs
    rfl
  · intro v h1 h2 h3
    cases v with
    | null => simp [Json.falsy] at h1
    | arr xs => exact absurd rfl (h3 xs)
    | bool b =>
      have hk : singleKeep (Json.bool b) = false := rfl
      simp [parseInterrupts, parseInterruptsCore, h1, hk, Json.getProp]
    | num n =>
      have hk : singleKeep (Json.num n) = false := rfl
      simp [parseInterrupts, parseInterruptsCore, h1, hk, Json.getProp]
    | str s =>
      have hk : singleKeep (Json.str s) = false := rfl
      simp [parseInterrupts, parseInterruptsCore, h1, hk, Json.getProp]
    | obj fields =>
      rcases hA : (Json.obj fields).getProp "action_requests" with _ | ja
      · by_cases hk : singleKeep (Json.obj fields) = true
        · simp [parseInterrupts, parseInterruptsCore, hA, hk, Json.falsy]
        · have hk' : singleKeep (Json.obj fields) = false :=
            Bool.eq_false_iff.mpr hk
          simp [parseInterrupts, parseInterruptsCore, hA, hk']
      · cases ja with
        | arr ars =>
          rcases hB : (Json.obj fields).getProp "review_configs" with _ | jb
          · by_cases hk : singleKeep (Json.obj fields) = true
            · simp [parseInterrupts, parseInterruptsCore, hA, hB, hk, Json.falsy]
            · have hk' : singleKeep (Json.obj fields) = false :=
                Bool.eq_false_iff.mpr hk
              simp [parseInterrupts, parseInterruptsCore, hA, hB, hk']
          · cases jb with
            | arr rcs =>
              exfalso
              rw [batchShape, hA, hB] at h2
              simp at h2
            | null =>
              by_cases hk : singleKeep (Json.obj fields) = true
              · simp [parseInterrupts, parseInterruptsCore, hA, hB, hk, Json.falsy]
              · simp [parseInterrupts, parseInterruptsCore, hA, hB, Json.falsy,
                  Bool.eq_false_iff.mpr hk]
            | bool b =>
              by_cases hk : singleKeep (Json.obj fields) = true
              · simp [parseInterrupts, parseInterruptsCore, hA, hB, hk, Json.falsy]
              · simp [parseInterrupts, parseInterruptsCore, hA, hB, Json.falsy,
                  Bool.eq_false_iff.mpr hk]
            | num n =>
              by_cases hk : singleKeep (Json.obj fields) = true
              · simp [parseInterrupts, parseInterruptsCore, hA, hB, hk, Json.falsy]
              · simp [parseInterrupts, parseInterruptsCore, hA, hB, Json.falsy,
                  Bool.eq_false_iff.mpr hk]
            | str s =>
              by_cases hk : singleKeep (Json.obj fields) = true
              · simp [parseInterrupts, parseInterruptsCore, hA, hB, hk, Json.falsy]
              · simp [parseInterrupts, parseInterruptsCore, hA, hB, Json.falsy,
                  Bool.eq_false_iff.mpr hk]
            | obj g =>
              by_cases hk : singleKeep (Json.obj fields) = true
              · simp [parseInterrupts, parseInterruptsCore, hA, hB, hk, Json.falsy]
              · simp [parseInterrupts, parseInterruptsCore, hA, hB, Json.falsy,
                  Bool.eq_false_iff.mpr hk]
        | null =>
          by_cases hk : singleKeep (Json.obj fields) = true
          · simp [parseInterrupts, parseInterruptsCore, hA, hk, Json.falsy]
          · simp [parseInterrupts, parseInterruptsCore, hA, Json.falsy,
              Bool.eq_false_iff.mpr hk]
        | bool b =>
          by_cases hk : singleKeep (Json.obj fields) = true
          · simp [parseInterrupts, parseInterruptsCore, hA, hk, Json.falsy]
          · simp [parseInterrupts, parseInterruptsCore, hA, Json.falsy,
              Bool.eq_false_iff.mpr hk]
        | num n =>
          by_cases hk : singleKeep (Json.obj fields) = true
          · simp [parseInterrupts, parseInterruptsCore, hA, hk, Json.falsy]
          · simp [parseInterrupts, parseInterruptsCore, hA, Json.falsy,
              Bool.eq_false_iff.mpr hk]
        | str s =>
          by_cases hk : singleKeep (Json.obj fields) = true
          · simp [parseInterrupts, parseInterruptsCore, hA, hk, Json.falsy]
          · simp [parseInterrupts, parseInterruptsCore, hA, Json.falsy,
              Bool.eq_false_iff.mpr hk]
        | obj g =>
          by_cases hk : singleKeep (Json.obj fields) = true
          · simp [parseInterrupts, parseInterruptsCore, hA, hk, Json.falsy]
          · simp [parseInterrupts, parseInterruptsCore, hA, Json.falsy,
              Bool.eq_false_iff.mpr hk]
  · intro v rows h
    simp [parseInterrupts, h]
  · intro v e h
    simp [parseInterrupts, h]
  · intro v h
    simp [interruptActionsVisible, h]

/-- Witness for C3: `null` parses to `[]`, and a lone object with a truthy
object `action_request` parses to its own singleton. -/
theorem parseInterrupts_precedence_witness :
    parseInterrupts Json.null = [] ∧
    parseInterrupts c1SingleRow = (if singleKeep c1SingleRow then [c1SingleRow] else []) ∧
    interruptActionsVisible Json.null = false :=
  ⟨parseInterrupts_precedence.1 Json.null rfl,
   parseInterrupts_precedence.2.2.2.1 c1SingleRow rfl rfl
     (by intro xs h; simp [c1SingleRow] at h),
   parseInterrupts_precedence.2.2.2.2.2.2 Json.null
     (parseInterrupts_precedence.1 Json.null rfl)⟩

/-- Helper for C6: de-duplication only keeps elements of the input. -/
theorem mem_of_mem_dedupByDataAux :
    ∀ (l : List ExtractedImage) (seen : List String) (y : ExtractedImage),
      y ∈ dedupByDataAux seen l → y ∈ l := by
  intro l
  induction l with
  | nil => intro seen y hy; simp [dedupByDataAux] at hy
  | cons x xs ih =>
    intro seen y hy
    by_cases h : seen.contains x.data
    · rw [dedupByDataAux, if_pos h] at hy
      exact List.mem_cons_of_mem x (ih seen y hy)
    · rw [dedupByDataAux, if_neg h] at hy
      rcases List.mem_cons.mp hy with rfl | hy'
      · exact List.mem_cons_self _ _
      · exact List.mem_cons_of_mem x (ih _ y hy')

/-- Helper for C6: every unseen `data` value present in the input survives
de-duplication. -/
theorem exists_mem_dedupByDataAux :
    ∀ (l : List ExtractedImage) (seen : List String) (x : ExtractedImage),
      x ∈ l → x.data ∉ seen →
      ∃ y, y ∈ dedupByDataAux seen l ∧ y.data = x.data := by
  intro l
  induction l with
  | nil => intro seen x hx; simp at hx
  | cons a as ih =>
    intro seen x hx hseen
    by_cases h : seen.contains a.data
    · rw [dedupByDataAux, if_pos h]
      rcases List.mem_cons.mp hx with rfl | hx'
      · exact absurd (by simpa using h) hseen
      · exact ih seen x hx' hseen
    · rw [dedupByDataAux, if_neg h]
      rcases List.mem_cons.mp hx with rfl | hx'
      · exact ⟨_, List.mem_cons_self _ _, rfl⟩
      · by_cases hd : x.data = a.data
        · exact ⟨a, List.mem_cons_self _ _, hd.symm⟩
        · obtain ⟨y, hy, hyd⟩ := ih (a.data :: seen) x hx'
            (by simp [hseen, hd])
          exact ⟨y, List.mem_cons_of_mem a hy, hyd⟩

/-- Helper for C6: de-duplication leaves no two entries with the same
`data`, and none whose `data` was already seen. -/
theorem dedupByDataAux_nodup :
    ∀ (l : List ExtractedImage) (seen : List String),
      ((dedupByDataAux seen l).map (fun y => y.data)).Nodup ∧
      ∀ y ∈ dedupByDataAux seen l, y.data ∉ seen := by
  intro l
  induction l with
  | nil => intro seen; simp [dedupByDataAux]
  | cons a as ih =>
    intro seen
    by_cases h : seen.contains a.data
    · rw [dedupByDataAux, if_pos h]
      exact ih seen
    · rw [dedupByDataAux, if_neg h]
      have ihA := ih (a.data :: seen)
      refine ⟨?_, ?_⟩
      · rw [List.map_cons, List.nodup_cons]
        refine ⟨?_, ihA.1⟩
        intro hmem
        obtain ⟨y, hy, hyd⟩ := List.mem_map.mp hmem
        exact (ihA.2 y hy) (by simp [hyd])
      · intro y hy
        rcases List.mem_cons.mp hy with rfl | hy'
        · exact fun hc => h (by simpa using hc)
        · exact fun hc => (ihA.2 y hy') (List.mem_cons_of_mem _ hc)

/-- Helper for C6: membership in the pattern-5 candidate list. -/
theorem mem_pattern5Images (text : String) (img : ExtractedImage) :
    img ∈ pattern5Images text ↔
      ∃ r, r ∈ b64Runs text.toList ∧ 1000 ≤ r.length ∧ r.length % 4 = 0 ∧
        hasMagicStart r = true ∧ img = mkP5Image r := by
  simp only [pattern5Images, List.mem_filterMap, List.mem_filter]
  constructor
  · rintro ⟨r, ⟨hr, hlen⟩, hf⟩
    by_cases hc : (r.length % 4 == 0 && hasMagicStart r) = true
    · rw [if_pos hc] at hf
      obtain ⟨h4, hm⟩ := Bool.and_eq_true_iff.mp hc
      exact ⟨r, hr, by simpa using hlen, by simpa using h4, hm,
        (Option.some_inj.mp hf).symm⟩
    · rw [if_neg hc] at hf
      cases hf
  · rintro ⟨r, hr, hlen, h4, hm, rfl⟩
    refine ⟨r, ⟨hr, by simpa using hlen⟩, ?_⟩
    rw [if_pos (by simp [h4, hm])]

/-- Helper for C6: left-cancellation of string concatenation. -/
theorem string_append_left_cancel (a b c : String) (h : a ++ b = a ++ c) :
    b = c := by
  have hd : a.data ++ b.data = a.data ++ c.data := congrArg String.data h
  have hbc := List.append_cancel_left hd
  cases b
  cases c
  exact congrArg String.mk hbc

/-- C6 counterexample: a tool-result string that is a single base64 run of
length 1001 starting with the PNG magic — at least 1000 characters and a
known magic, yet not extracted, because the code additionally requires the
run length to be a multiple of 4. -/
theorem extractImages_misses_odd_length_magic_run :
    (String.mk c6Run).length = 1001 ∧
    hasMagicStart (String.mk c6Run).toList = true ∧
    b64Runs (String.mk c6Run).toList = [c6Run] ∧
    extractLongBase64Images (String.mk c6Run) = [] := by
  set_option maxRecDepth 8000 in decide

/-- C6 (amended): for every tool-result string, the long-base64 stage
extracts exactly the maximal base64 runs of length at least 1000 *and
divisible by 4* whose start matches a known image magic, and de-duplicates
extracted images by exact `data` value. -/
theorem extractImages_longbase64_spec (text : String) :
    (∀ r, r ∈ b64Runs text.toList → 1000 ≤ r.length → r.length % 4 = 0 →
      hasMagicStart r = true →
      ∃ img, img ∈ extractLongBase64Images text ∧
        img.original = String.mk r ∧
        img.data = "data:image/png;base64," ++ String.mk r) ∧
    (∀ img, img ∈ extractLongBase64Images text →
      ∃ r, r ∈ b64Runs text.toList ∧ 1000 ≤ r.length ∧ r.length % 4 = 0 ∧
        hasMagicStart r = true ∧ img.original = String.mk r) ∧
    ((extractLongBase64Images text).map (fun img => img.data)).Nodup := by
  refine ⟨?_, ?_, ?_⟩
  · intro r hr hlen h4 hm
    have hmem : mkP5Image r ∈ pattern5Images text :=
      (mem_pattern5Images text _).mpr ⟨r, hr, hlen, h4, hm, rfl⟩
    obtain ⟨y, hy, hyd⟩ :=
      exists_mem_dedupByDataAux (pattern5Images text) [] _ hmem (by simp)
    have hyp5 : y ∈ pattern5Images text :=
      mem_of_mem_dedupByDataAux (pattern5Images text) [] y hy
    obtain ⟨r', _, _, _, _, hy_eq⟩ := (mem_pattern5Images text y).mp hyp5
    have hdr : "data:image/png;base64," ++ String.mk r'
        = "data:image/png;base64," ++ String.mk r := by
      have hh := hyd
      rw [hy_eq] at hh
      simpa [mkP5Image] using hh
    have hrr : String.mk r' = String.mk r :=
      string_append_left_cancel _ _ _ hdr
    refine ⟨y, hy, ?_, ?_⟩
    · rw [hy_eq]
      simpa [mkP5Image] using hrr
    · rw [hy_eq]
      simpa [mkP5Image] using hdr
  · intro img himg
    have hp5 : img ∈ pattern5Images text :=
      mem_of_mem_dedupByDataAux (pattern5Images text) [] img himg
    obtain ⟨r, hr, hlen, h4, hm, heq⟩ := (mem_pattern5Images text img).mp hp5
    exact ⟨r, hr, hlen, h4, hm, by rw [heq]; rfl⟩
  · exact (dedupByDataAux_nodup (pattern5Images text) []).1

/-- Witness for C6: a 1004-character PNG-magic run is extracted. -/
theorem extractImages_longbase64_spec_witness :
    ∃ img, img ∈ extractLongBase64Images (String.mk c6GoodRun) ∧
      img.original = String.mk c6GoodRun ∧
      img.data = "data:image/png;base64," ++ String.mk c6GoodRun :=
  (extractImages_longbase64_spec (String.mk c6GoodRun)).1 c6GoodRun
    (by set_option maxRecDepth 8000 in decide)
    (by set_option maxRecDepth 8000 in decide)
    (by set_option maxRecDepth 8000 in decide)
    (by decide)

/-- Helper for C9: `Except.ok` on the left of a bind reduces. -/
theorem exceptOk_bind {ε α β : Type} (a : α) (f : α → Except ε β) :
    (Except.ok a >>= f) = f a := rfl

/-- Helper for C9: `Except.error` on the left of a bind reduces. -/
theorem exceptErr_bind {ε α β : Type} (e : ε) (f : α → Except ε β) :
    ((Except.error e : Except ε α) >>= f) = Except.error e := rfl

/-- Helper for C9: the title phase on a first human message with nonempty
string content. -/
theorem titleStep_of_str (ms : List Json) (m : Json) (s : String)
    (hfind : findMsgE ms "human" = .ok (some m))
    (hc : m.getProp "content" = some (.str s)) (hs : s ≠ "") :
    titleStep ms =
      .ok (some (String.mk (s.toList.take 50) ++
        (if 50 < s.length then "..." else ""))) := by
  have hsb : (s == "") = false := beq_eq_false_iff_ne.mpr hs
  simp only [titleStep, hfind, exceptOk_bind]
  simp [hc, Json.falsy, hsb, contentResolve, titleFromContent, exceptOk_bind]

/-- Helper for C9: the description phase on a first AI message with
nonempty string content. -/
theorem descStep_of_str (ms : List Json) (m : Json) (s : String)
    (hfind : findMsgE ms "ai" = .ok (some m))
    (hc : m.getProp "content" = some (.str s)) (hs : s ≠ "") :
    descStep ms = .ok (some (.str (String.mk (s.toList.take 100)))) := by
  have hsb : (s == "") = false := beq_eq_false_iff_ne.mpr hs
  simp only [descStep, hfind, exceptOk_bind]
  simp [hc, Json.falsy, hsb, contentResolve, descFromContent, exceptOk_bind]

/-- C9: for every listed thread with an object state, the derived title is
the first 50 characters of the first human message's string content with an
ellipsis appended when longer (provided the description phase does not
throw), the derived description is the first 100 characters of the first AI
message's string content (provided the title phase does not throw), and
whenever `values.messages` is not an array the whole `try` throws and the
title falls back to `对话 ` + the first 8 characters of the thread id. -/
theorem threadItem_title_description :
    ∀ (aid : String) (t : RawThread) (fields : List (String × Json)),
      t.values = some (Json.obj fields) →
      ((∀ ms m s, (Json.obj fields).getProp "messages" = some (.arr ms) →
          findMsgE ms "human" = .ok (some m) →
          m.getProp "content" = some (.str s) → s ≠ "" →
          (∃ d, descStep ms = .ok d) →
          (threadToItem aid t).title =
            String.mk (s.toList.take 50) ++ (if 50 < s.length then "..." else "")) ∧
       (∀ ms m s, (Json.obj fields).getProp "messages" = some (.arr ms) →
          findMsgE ms "ai" = .ok (some m) →
          m.getProp "content" = some (.str s) → s ≠ "" →
          (∃ u, titleStep ms = .ok u) →
          (threadToItem aid t).description = .str (String.mk (s.toList.take 100))) ∧
       ((∀ ms, (Json.obj fields).getProp "messages" ≠ some (.arr ms)) →
          (threadToItem aid t).title =
            "对话 " ++ String.mk (t.thread_id.toList.take 8))) := by
  intro aid t fields hv
  refine ⟨?_, ?_, ?_⟩
  · intro ms m s hms hfind hc hs hd
    obtain ⟨d, hd⟩ := hd
    have htitle := titleStep_of_str ms m s hfind hc hs
    have hbody : tryDeriveTitleDesc (Json.obj fields) =
        .ok (some (String.mk (s.toList.take 50) ++
          (if 50 < s.length then "..." else "")), d) := by
      simp only [tryDeriveTitleDesc, hms, exceptOk_bind, htitle, hd,
        Except.map_ok]
      rfl
    simp [threadToItem, deriveTitleDesc, hv, Json.falsy, Json.isObjectType,
      hbody]
  · intro ms m s hms hfind hc hs ht
    obtain ⟨u, ht⟩ := ht
    have hdesc := descStep_of_str ms m s hfind hc hs
    have hbody : tryDeriveTitleDesc (Json.obj fields) =
        .ok (u, some (.str (String.mk (s.toList.take 100)))) := by
      simp only [tryDeriveTitleDesc, hms, exceptOk_bind, ht, hdesc,
        Except.map_ok]
      rfl
    simp [threadToItem, deriveTitleDesc, hv, Json.falsy, Json.isObjectType,
      hbody]
  · intro hms
    have hbody : tryDeriveTitleDesc (Json.obj fields) = .error () := by
      rcases hlook : (Json.obj fields).getProp "messages" with _ | j
      · simp only [tryDeriveTitleDesc, hlook, exceptErr_bind]
      · cases j with
        | arr ms => exact absurd hlook (hms ms)
        | null => simp only [tryDeriveTitleDesc, hlook, exceptErr_bind]
        | bool b => simp only [tryDeriveTitleDesc, hlook, exceptErr_bind]
        | num n => simp only [tryDeriveTitleDesc, hlook, exceptErr_bind]
        | str s => simp only [tryDeriveTitleDesc, hlook, exceptErr_bind]
        | obj g => simp only [tryDeriveTitleDesc, hlook, exceptErr_bind]
    simp [threadToItem, deriveTitleDesc, hv, Json.falsy, Json.isObjectType,
      hbody]

/-- Witness for C9: concrete well-formed and malformed threads. -/
theorem threadItem_title_description_witness :
    (threadToItem "agent" c9Thread).title = "hello" ∧
    (threadToItem "agent" c9Thread).description = Json.str "world" ∧
    (threadToItem "agent" c9BadThread).title = "对话 threadid" := by
  refine ⟨?_, ?_, ?_⟩
  · have h := (threadItem_title_description "agent" c9Thread
      [("messages", .arr c9Messages)] rfl).1 c9Messages c9Human "hello"
      rfl rfl rfl (by decide) ⟨_, rfl⟩
    exact h.trans (by decide)
  · have h := (threadItem_title_description "agent" c9Thread
      [("messages", .arr c9Messages)] rfl).2.1 c9Messages c9Ai "world"
      rfl rfl rfl (by decide) ⟨_, rfl⟩
    exact h.trans (by rfl)
  · have h := (threadItem_title_description "agent" c9BadThread
      [("messages", .str "oops")] rfl).2.2
      (by intro ms hbad; simp [Json.getProp] at hbad)
    exact h.trans (by decide)

end LGTeach
